import Mathlib

/-!
Verification development for the DAG health monitor.

The repository ships the React frontend (`frontend/src/App.js`, containing the
`App` component and the `GraphVisualization` component) together with a README
describing the FastAPI backend.  The backend engine itself (`backend/server.py`)
is not part of the sources, so the engine — graph model, validator, traversal
planner, health prober, status aggregator and result store — is modelled here
from the design specification; the frontend behaviour is embedded directly from
`App.js`.
-/

namespace DagHealth

/-- Position of the first occurrence of `v` in `L` (length of `L` if absent). -/
def pos [DecidableEq α] : List α → α → Nat
  | [], _ => 0
  | a :: as, v => if a = v then 0 else pos as v + 1

/-- Per-node health classification (spec §3, ProbeResult.status). -/
inductive HealthStatus where
  | healthy
  | unhealthy
  | unreachable
deriving DecidableEq

/-- Overall system classification (spec §3, CheckRecord.overall_status). -/
inductive OverallStatus where
  | healthy
  | unhealthy
  | critical
deriving DecidableEq

/-- Modelled from the spec: ProbeResult record (§3).  `response_time_ms` is a
rational standing for the JSON float, present only on a completed response. -/
structure ProbeResult where
  node_id : String
  status : HealthStatus
  response_time_ms : Option ℚ
  error_message : Option String
  checked_at : Nat
deriving DecidableEq

/-- Node descriptor of the request body (spec §3, §6). -/
structure NodeDef where
  id : String
  name : String
  health_endpoint : String
  dependencies : List String
deriving DecidableEq

/-- Edge descriptor of the request body (spec §3, §6). -/
structure EdgeDef where
  «from» : String
  «to» : String
deriving DecidableEq

/-- Incoming health-check request: node and edge definitions (spec §6). -/
structure DagRequest where
  nodes : List NodeDef
  edges : List EdgeDef
deriving DecidableEq

/-- Modelled from the spec: CheckRecord (§3), one self-contained document per
completed health check. -/
structure CheckRecord where
  dag_id : String
  overall_status : OverallStatus
  nodes : List ProbeResult
  graph_data : DagRequest
  traversal_order : List String
  checked_at : Nat
deriving DecidableEq

/-- Modelled from the spec: error taxonomy (§7). `CyclicGraph` carries the set
of nodes that could not be placed in any layer. -/
inductive EngineError where
  | UnknownNodeReference
  | CyclicGraph (stuck : List String)
  | EmptyGraph
  | InconsistentGraph
  | NotFound
  | PersistenceError
deriving DecidableEq

/-- Modelled from the spec: the outcome of one probe as seen by the Health
Prober (§4.4) — either a completed HTTP response (status code and round-trip
time) or a connection/DNS/timeout failure with a human-readable message. -/
inductive ProbeOutcome where
  | response (code : Nat) (rtt : ℚ)
  | failure (message : String)
deriving DecidableEq

/-- Modelled from the spec: Health Prober classification of one probe outcome
(§4.4): 200 ⇒ `healthy` with round-trip time; other status codes ⇒ `unhealthy`
with the code recorded in the error message and the time still recorded;
connection failure / timeout ⇒ `unreachable` with the message and no time. -/
def classify (nodeId : String) (now : Nat) : ProbeOutcome → ProbeResult
  | .response code rtt =>
    if code = 200 then
      { node_id := nodeId, status := .healthy, response_time_ms := some rtt,
        error_message := none, checked_at := now }
    else
      { node_id := nodeId, status := .unhealthy, response_time_ms := some rtt,
        error_message := some ("HTTP " ++ toString code), checked_at := now }
  | .failure msg =>
    { node_id := nodeId, status := .unreachable, response_time_ms := none,
      error_message := some msg, checked_at := now }

/-- Number of results whose status is `unhealthy` or `unreachable`. -/
def nonHealthyCount (rs : List ProbeResult) : Nat :=
  (rs.filter (fun r => r.status = .unhealthy ∨ r.status = .unreachable)).length

/-- Modelled from the spec: Status Aggregator (§4.5, threshold fixed per §9 to
">50% non-healthy ⇒ critical"): all healthy ⇒ `healthy`; a strict majority of
`unhealthy`/`unreachable` nodes ⇒ `critical`; otherwise `unhealthy`. -/
def aggregate (rs : List ProbeResult) : OverallStatus :=
  let bad := nonHealthyCount rs
  if bad = 0 then .healthy
  else if rs.length < 2 * bad then .critical
  else .unhealthy

/-- One round of breadth-first layering (spec §4.3): among the remaining nodes,
those whose dependencies have all been assigned to earlier layers are appended
(in input order) to the assigned list; the rest stay remaining.  State is
`(assigned, remaining)`. -/
def layerStep [DecidableEq α] (deps : α → List α) (st : List α × List α) :
    List α × List α :=
  (st.1 ++ st.2.filter (fun v => (deps v).all (fun d => decide (d ∈ st.1))),
   st.2.filter (fun v => ! (deps v).all (fun d => decide (d ∈ st.1))))

/-- Iterate `layerStep` a fixed number of rounds. -/
def layersIter [DecidableEq α] (deps : α → List α) :
    Nat → List α × List α → List α × List α
  | 0, st => st
  | n + 1, st => layersIter deps n (layerStep deps st)

/-- Run the layering to saturation: `nodes.length` rounds starting from nothing
assigned.  Returns `(assigned, stuck)`; `stuck` is empty exactly on acyclic
inputs. -/
def planState [DecidableEq α] (deps : α → List α) (nodes : List α) :
    List α × List α :=
  layersIter deps nodes.length ([], nodes)

/-- Modelled from the spec: Traversal Planner (§4.3).  Breadth-first layering;
fails with `CyclicGraph` when some nodes can never be assigned a layer. -/
def planTraversal (deps : String → List String) (nodes : List String) :
    Except EngineError (List String) :=
  let st := planState deps nodes
  if st.2.isEmpty then .ok st.1 else .error (.CyclicGraph st.2)

/-- Invariant of the layering loop: the assigned list has no duplicates, is
disjoint from the remaining list, together they cover the node set, and every
assigned node sits after all of its dependencies. -/
structure PlanInv [DecidableEq α] (deps : α → List α) (nodes : List α)
    (st : List α × List α) : Prop where
  nodupA : st.1.Nodup
  nodupR : st.2.Nodup
  disj : ∀ x ∈ st.1, x ∉ st.2
  cover : ∀ x, x ∈ nodes ↔ x ∈ st.1 ∨ x ∈ st.2
  topo : ∀ v ∈ st.1, ∀ d ∈ deps v, d ∈ st.1 ∧ pos st.1 d < pos st.1 v

/-- Reachability: `ReachN deps n v w` is a directed walk of `n` steps from `v` to `w` along
the dependency relation (`v` depends on `d` for `d ∈ deps v`). -/
inductive ReachN (deps : α → List α) : Nat → α → α → Prop where
  | refl (v : α) : ReachN deps 0 v v
  | step {v d w : α} {n : Nat} : d ∈ deps v → ReachN deps n d w →
      ReachN deps (n + 1) v w

/-- The dependency graph on `nodes` contains a directed cycle. -/
def HasCycle (deps : α → List α) (nodes : List α) : Prop :=
  ∃ v ∈ nodes, ∃ n, 0 < n ∧ ReachN deps n v v

/-- Dependency list of the node with a given id (spec §4.1: mapping from node
id to its dependency set). -/
def depsOf (nodes : List NodeDef) (v : String) : List String :=
  match nodes.find? (fun n => n.id = v) with
  | some n => n.dependencies
  | none => []

/-- The list of declared node ids, in input order. -/
def nodeIds (req : DagRequest) : List String :=
  req.nodes.map (fun n => n.id)

/-- Every dependency and edge endpoint resolves to a declared node
(spec §4.2 check (a)). -/
def checkRefs (req : DagRequest) : Bool :=
  req.nodes.all (fun n => n.dependencies.all
      (fun d => req.nodes.any (fun m => m.id = d)))
    && req.edges.all (fun e =>
      req.nodes.any (fun m => m.id = e.from)
        && req.nodes.any (fun m => m.id = e.to))

/-- Modelled from the spec: the `edges` list and the per-node `dependencies`
must agree (§3, §9): an edge `from → to` states that `to` depends on `from`
(as in the README sample), and every declared dependency has its edge. -/
def checkConsistent (req : DagRequest) : Bool :=
  req.edges.all (fun e =>
      match req.nodes.find? (fun n => n.id = e.to) with
      | some n => decide (e.from ∈ n.dependencies)
      | none => false)
    && req.nodes.all (fun n => n.dependencies.all
      (fun d => req.edges.any (fun e => e.from = d ∧ e.to = n.id)))

/-- Modelled from the spec: Graph Validator (§4.2 and §3): reference check,
edge/dependency consistency check, cycle check, non-emptiness check; pure and
run to completion before any probing. -/
def validate (req : DagRequest) : Except EngineError Unit :=
  if ¬ checkRefs req then .error .UnknownNodeReference
  else if ¬ checkConsistent req then .error .InconsistentGraph
  else
    let st := planState (depsOf req.nodes) (nodeIds req)
    if ¬ st.2.isEmpty then .error (.CyclicGraph st.2)
    else if req.nodes.isEmpty then .error .EmptyGraph
    else .ok ()

/-- Modelled from the spec: the Health Prober (§4.4) probes every node's
`health_endpoint` (the network is abstracted as `probe`) and classifies each
outcome into a ProbeResult. -/
def runProbes (probe : String → ProbeOutcome) (now : Nat)
    (nodes : List NodeDef) : List ProbeResult :=
  nodes.map (fun n => classify n.id now (probe n.health_endpoint))

/-- Modelled from the spec: the engine pipeline (§2, §4.6, §7): validate, plan,
probe, aggregate, assemble the CheckRecord, then attempt persistence; a
`PersistenceError` is only logged and never masks the computed record. -/
def handleHealthCheck (probe : String → ProbeOutcome)
    (persist : CheckRecord → Except EngineError Unit) (now : Nat)
    (dagId : String) (req : DagRequest) :
    Except EngineError (CheckRecord × List String) :=
  match validate req with
  | .error e => .error e
  | .ok () =>
    match planTraversal (depsOf req.nodes) (nodeIds req) with
    | .error e => .error e
    | .ok order =>
      let results := runProbes probe now req.nodes
      let record : CheckRecord :=
        { dag_id := dagId, overall_status := aggregate results,
          nodes := results, graph_data := req, traversal_order := order,
          checked_at := now }
      match persist record with
      | .ok () => .ok (record, [])
      | .error _ => .ok (record, ["PersistenceError"])

/-- Modelled from the spec: Result Store `save` (§4.6) — append the record to
the store. -/
def saveRecord (r : CheckRecord) (store : List CheckRecord) :
    List CheckRecord :=
  store ++ [r]

/-- Modelled from the spec: Result Store `getByDagId` (§4.6) — the matching
record, or `NotFound`. -/
def getByDagId (id : String) (store : List CheckRecord) :
    Except EngineError CheckRecord :=
  match store.find? (fun r => r.dag_id = id) with
  | some r => .ok r
  | none => .error .NotFound

/-- Insert a record into a list kept in descending `checked_at` order. -/
def insertDesc (r : CheckRecord) : List CheckRecord → List CheckRecord
  | [] => [r]
  | x :: xs =>
    if r.checked_at ≤ x.checked_at then x :: insertDesc r xs else r :: x :: xs

/-- Sort records by `checked_at`, most recent first. -/
def sortDesc (store : List CheckRecord) : List CheckRecord :=
  store.foldr insertDesc []

/-- Modelled from the spec: Result Store `listRecent` (§4.6) — the most recent
records, in descending `checked_at` order, bounded to 100 entries. -/
def listRecent (store : List CheckRecord) : List CheckRecord :=
  (sortDesc store).take 100

/-- A toast notification emitted through `sonner` (`toast.success` /
`toast.error` in `App.js`). -/
inductive Toast where
  | success (msg : String)
  | error (msg : String)
deriving DecidableEq

/-- The response consumed by the frontend (`healthResults` in `App.js`); the
fields used by the UI coincide with the engine's CheckRecord. -/
abbrev HealthResponse := CheckRecord

/-- The `App` component state (`App.js` lines 16–19): the `useState` hooks
`dagData`, `healthResults`, `loading`, plus the stream of toasts shown. -/
structure AppState where
  dagData : Option DagRequest
  healthResults : Option HealthResponse
  loading : Bool
  toasts : List Toast
deriving DecidableEq

/-- Frontend `runHealthCheck` (`App.js` lines 85–101): with no `dagData` it only shows
an error toast and returns; otherwise it posts the configuration (the network
abstracted as `post`), stores the response or shows the failure, and clears
`loading`. -/
def runHealthCheckFE (post : DagRequest → Except String HealthResponse)
    (s : AppState) : AppState :=
  match s.dagData with
  | none =>
    { s with toasts :=
        s.toasts ++ [.error "Please upload a DAG configuration first"] }
  | some d =>
    match post d with
    | .ok resp =>
      { s with healthResults := some resp
               loading := false
               toasts := s.toasts ++ [.success "Health check completed"] }
    | .error msg =>
      { s with loading := false
               toasts :=
                 s.toasts ++ [.error ("Health check failed: " ++ msg)] }

/-- Frontend `handleFileUpload` (`App.js` lines 62–77): parse the uploaded file
(`JSON.parse` abstracted as `parse`); on success store the configuration, on
failure only show "Invalid JSON file". -/
def handleFileUpload (parse : String → Option DagRequest) (contents : String)
    (s : AppState) : AppState :=
  match parse contents with
  | some json =>
    { s with dagData := some json
             toasts :=
               s.toasts ++ [.success "DAG configuration loaded successfully"] }
  | none =>
    { s with toasts := s.toasts ++ [.error "Invalid JSON file"] }

/-- JavaScript truthiness of the optional numeric field `response_time_ms`:
`undefined` and `0` are falsy, every other number is truthy. -/
def jsTruthy : Option ℚ → Bool
  | none => false
  | some q => decide (q ≠ 0)

/-- The Response Time cell (`App.js` line 284):
`node.response_time_ms ? node.response_time_ms + "ms" : "-"`, with the
number-to-string conversion abstracted as `fmt`. -/
def renderResponseTime (fmt : ℚ → String) (rt : Option ℚ) : String :=
  match rt with
  | some q => if jsTruthy (some q) then fmt q ++ "ms" else "-"
  | none => "-"

/-- The `healthMap` lookup of `GraphVisualization` (`App.js` lines 347–351,
379, 398): `forEach` assignment keyed by `node_id`, so the last result for an
id wins; absent ids give `undefined`. -/
def statusIn (results : List (String × String)) (id : String) :
    Option String :=
  (results.reverse.find? (fun p => p.1 = id)).map (fun p => p.2)

/-- Node `background-color` (`App.js` lines 378–384). -/
def nodeBackgroundColor (status : Option String) : String :=
  if status = some "healthy" then "#10b981"
  else if status = some "unhealthy" then "#f59e0b"
  else if status = some "unreachable" then "#ef4444"
  else "#6b7280"

/-- Node `border-color` (`App.js` lines 397–403). -/
def nodeBorderColor (status : Option String) : String :=
  if status = some "healthy" then "#059669"
  else if status = some "unhealthy" then "#d97706"
  else if status = some "unreachable" then "#dc2626"
  else "#4b5563"

/-- The colors `GraphVisualization` actually assigns to a rendered node: the
status looked up in `healthMap`, fed to the two color functions. -/
def renderedNodeColors (results : List (String × String)) (id : String) :
    String × String :=
  (nodeBackgroundColor (statusIn results id),
   nodeBorderColor (statusIn results id))

theorem pos_lt_length [DecidableEq α] {L : List α} {v : α} (h : v ∈ L) :
    pos L v < L.length := by
  induction L with
  | nil => cases h
  | cons a as ih =>
    by_cases hav : a = v
    · simp [pos, hav]
    · rcases List.mem_cons.mp h with h' | h'
      · exact absurd h'.symm hav
      · simpa [pos, hav] using ih h'

theorem pos_append_of_mem [DecidableEq α] {L₁ L₂ : List α} {v : α}
    (h : v ∈ L₁) : pos (L₁ ++ L₂) v = pos L₁ v := by
  induction L₁ with
  | nil => cases h
  | cons a as ih =>
    by_cases hav : a = v
    · simp [pos, hav]
    · rcases List.mem_cons.mp h with h' | h'
      · exact absurd h'.symm hav
      · simp [pos, hav, ih h']

theorem pos_append_of_not_mem [DecidableEq α] {L₁ L₂ : List α} {v : α}
    (h : v ∉ L₁) : pos (L₁ ++ L₂) v = L₁.length + pos L₂ v := by
  induction L₁ with
  | nil => simp [pos]
  | cons a as ih =>
    have hav : a ≠ v := fun he => h (he ▸ List.mem_cons_self a as)
    have h' : v ∉ as := fun hm => h (List.mem_cons_of_mem a hm)
    simp [pos, hav, ih h']
    omega

theorem length_filter_not_lt {p : α → Bool} {l : List α} {x : α} (hx : x ∈ l)
    (hpx : p x = true) : (l.filter (fun a => ! p a)).length < l.length := by
  induction l with
  | nil => cases hx
  | cons a as ih =>
    by_cases hpa : p a = true
    · have : (a :: as).filter (fun a => ! p a) = as.filter (fun a => ! p a) := by
        simp [List.filter, hpa]
      rw [this]
      have := List.length_filter_le (fun a => ! p a) as
      simp only [List.length_cons]
      omega
    · rcases List.mem_cons.mp hx with h' | h'
      · exact absurd (h' ▸ hpx) hpa
      · have : (a :: as).filter (fun a => ! p a)
            = a :: as.filter (fun a => ! p a) := by
          simp [List.filter, hpa]
        rw [this]
        simpa using ih h'

theorem planInv_init [DecidableEq α] (deps : α → List α) {nodes : List α}
    (hnd : nodes.Nodup) : PlanInv deps nodes ([], nodes) := by
  refine ⟨List.nodup_nil, hnd, ?_, ?_, ?_⟩
  · intro x hx; cases hx
  · intro x; simp
  · intro v hv; cases hv

theorem planInv_step [DecidableEq α] {deps : α → List α} {nodes : List α}
    {st : List α × List α} (h : PlanInv deps nodes st) :
    PlanInv deps nodes (layerStep deps st) := by
  obtain ⟨hA, hR, hdisj, hcover, htopo⟩ := h
  set ready := st.2.filter (fun v => (deps v).all (fun d => decide (d ∈ st.1)))
    with hready
  set rest := st.2.filter (fun v => ! (deps v).all (fun d => decide (d ∈ st.1)))
    with hrest
  have hreadyR : ∀ x ∈ ready, x ∈ st.2 := fun x hx =>
    (List.mem_filter.mp hx).1
  have hrestR : ∀ x ∈ rest, x ∈ st.2 := fun x hx =>
    (List.mem_filter.mp hx).1
  have hreadyDeps : ∀ v ∈ ready, ∀ d ∈ deps v, d ∈ st.1 := by
    intro v hv d hd
    have := (List.mem_filter.mp hv).2
    rw [List.all_eq_true] at this
    simpa using this d hd
  refine ⟨?_, ?_, ?_, ?_, ?_⟩
  · show (st.1 ++ ready).Nodup
    rw [List.nodup_append]
    exact ⟨hA, hR.filter _, fun x hx hx' => hdisj x hx (hreadyR x hx')⟩
  · exact hR.filter _
  · show ∀ x ∈ st.1 ++ ready, x ∉ rest
    intro x hx hx'
    rcases List.mem_append.mp hx with h1 | h1
    · exact hdisj x h1 (hrestR x hx')
    · have ht := (List.mem_filter.mp h1).2
      have hf := (List.mem_filter.mp hx').2
      simp only [Bool.not_eq_true'] at hf
      rw [ht] at hf
      cases hf
  · intro x
    rw [hcover]
    constructor
    · rintro (h1 | h1)
      · exact Or.inl (List.mem_append.mpr (Or.inl h1))
      · by_cases hc : (deps x).all (fun d => decide (d ∈ st.1)) = true
        · exact Or.inl (List.mem_append.mpr (Or.inr
            (List.mem_filter.mpr ⟨h1, hc⟩)))
        · exact Or.inr (List.mem_filter.mpr ⟨h1, by simp [hc]⟩)
    · rintro (h1 | h1)
      · rcases List.mem_append.mp h1 with h2 | h2
        · exact Or.inl h2
        · exact Or.inr (hreadyR x h2)
      · exact Or.inr (hrestR x h1)
  · show ∀ v ∈ st.1 ++ ready, ∀ d ∈ deps v,
      d ∈ st.1 ++ ready ∧ pos (st.1 ++ ready) d < pos (st.1 ++ ready) v
    intro v hv d hd
    rcases List.mem_append.mp hv with h1 | h1
    · obtain ⟨hdA, hpd⟩ := htopo v h1 d hd
      refine ⟨List.mem_append.mpr (Or.inl hdA), ?_⟩
      rw [pos_append_of_mem hdA, pos_append_of_mem h1]
      exact hpd
    · have hdA : d ∈ st.1 := hreadyDeps v h1 d hd
      refine ⟨List.mem_append.mpr (Or.inl hdA), ?_⟩
      have hvnA : v ∉ st.1 := fun hc => hdisj v hc (hreadyR v h1)
      rw [pos_append_of_mem hdA, pos_append_of_not_mem hvnA]
      have := pos_lt_length hdA
      omega

theorem planInv_iter [DecidableEq α] {deps : α → List α} {nodes : List α}
    (n : Nat) {st : List α × List α} (h : PlanInv deps nodes st) :
    PlanInv deps nodes (layersIter deps n st) := by
  induction n generalizing st with
  | zero => exact h
  | succ n ih => exact ih (planInv_step h)

theorem layerStep_progress [DecidableEq α] (deps : α → List α)
    (st : List α × List α) :
    layerStep deps st = st ∨ (layerStep deps st).2.length < st.2.length := by
  by_cases h :
      st.2.filter (fun v => (deps v).all (fun d => decide (d ∈ st.1))) = []
  · left
    have hall : ∀ v ∈ st.2,
        ¬ ((deps v).all (fun d => decide (d ∈ st.1)) = true) := by
      intro v hv hc
      have : v ∈ st.2.filter
          (fun v => (deps v).all (fun d => decide (d ∈ st.1))) :=
        List.mem_filter.mpr ⟨hv, hc⟩
      rw [h] at this
      cases this
    have hrest : st.2.filter
        (fun v => ! (deps v).all (fun d => decide (d ∈ st.1))) = st.2 :=
      List.filter_eq_self.mpr (fun v hv => by simp [hall v hv])
    unfold layerStep
    rw [h, hrest, List.append_nil]
  · right
    obtain ⟨x, hx⟩ := List.exists_mem_of_ne_nil _ h
    have hx2 := List.mem_filter.mp hx
    unfold layerStep
    exact length_filter_not_lt hx2.1 hx2.2

theorem layersIter_of_fix [DecidableEq α] {deps : α → List α}
    {st : List α × List α} (h : layerStep deps st = st) (n : Nat) :
    layersIter deps n st = st := by
  induction n with
  | zero => rfl
  | succ n ih =>
    show layersIter deps n (layerStep deps st) = st
    rw [h, ih]

theorem layersIter_reaches_fix [DecidableEq α] {deps : α → List α} (n : Nat)
    (st : List α × List α) (h : st.2.length ≤ n) :
    layerStep deps (layersIter deps n st) = layersIter deps n st := by
  induction n generalizing st with
  | zero =>
    have h2 : st.2 = [] := List.eq_nil_of_length_eq_zero (Nat.le_zero.mp h)
    show layerStep deps st = st
    unfold layerStep
    rw [h2]
    simp only [List.filter_nil, List.append_nil]
    exact (Prod.ext rfl h2.symm)
  | succ n ih =>
    rcases layerStep_progress deps st with hfix | hlt
    · show layerStep deps (layersIter deps n (layerStep deps st))
        = layersIter deps n (layerStep deps st)
      rw [hfix, layersIter_of_fix hfix n]
      exact hfix
    · show layerStep deps (layersIter deps n (layerStep deps st))
        = layersIter deps n (layerStep deps st)
      exact ih (layerStep deps st) (by omega)

theorem fix_ready_nil [DecidableEq α] {deps : α → List α}
    {st : List α × List α} (h : layerStep deps st = st) :
    st.2.filter (fun v => (deps v).all (fun d => decide (d ∈ st.1))) = [] := by
  have h1 := congrArg (fun p => (Prod.fst p).length) h
  simp only [layerStep, List.length_append] at h1
  exact List.eq_nil_of_length_eq_zero (by omega)

theorem reachN_zero {deps : α → List α} {v w : α} (h : ReachN deps 0 v w) :
    v = w := by
  cases h
  rfl

theorem topo_reach_pos [DecidableEq α] {deps : α → List α} {L : List α}
    (htopo : ∀ v ∈ L, ∀ d ∈ deps v, d ∈ L ∧ pos L d < pos L v) {n : Nat}
    {v w : α} (hr : ReachN deps n v w) :
    v ∈ L → 0 < n → w ∈ L ∧ pos L w < pos L v := by
  induction hr with
  | refl x => intro _ h0; omega
  | @step v d w m hd hrest ih =>
    intro hv _
    obtain ⟨hdL, hpd⟩ := htopo v hv d hd
    rcases Nat.eq_zero_or_pos m with hm | hm
    · subst hm
      have hdw : d = w := reachN_zero hrest
      subst hdw
      exact ⟨hdL, hpd⟩
    · obtain ⟨hwL, hpw⟩ := ih hdL hm
      exact ⟨hwL, lt_trans hpw hpd⟩

theorem no_cycle_of_topo [DecidableEq α] {deps : α → List α} {L : List α}
    {nodes : List α}
    (htopo : ∀ v ∈ L, ∀ d ∈ deps v, d ∈ L ∧ pos L d < pos L v)
    (hsub : ∀ x ∈ nodes, x ∈ L) : ¬ HasCycle deps nodes := by
  rintro ⟨v, hv, n, hn, hr⟩
  have := topo_reach_pos htopo hr (hsub v hv) hn
  omega

theorem closed_list_cycle [DecidableEq α] {deps : α → List α} (S : List α)
    (hne : S ≠ []) (hcl : ∀ v ∈ S, ∃ d ∈ deps v, d ∈ S) :
    ∃ v ∈ S, ∃ n, 0 < n ∧ ReachN deps n v v := by
  classical
  set f : α → α :=
    fun v => ((deps v).find? (fun d => decide (d ∈ S))).getD v with hf_def
  have hf : ∀ v ∈ S, f v ∈ deps v ∧ f v ∈ S := by
    intro v hv
    obtain ⟨d, hd, hdS⟩ := hcl v hv
    have hsome : ((deps v).find? (fun d => decide (d ∈ S))).isSome := by
      rw [List.find?_isSome]
      exact ⟨d, hd, by simpa using hdS⟩
    obtain ⟨d', hd'⟩ := Option.isSome_iff_exists.mp hsome
    have h1 : d' ∈ deps v := List.mem_of_find?_eq_some hd'
    have h2 : d' ∈ S := by
      have := List.find?_some hd'
      simpa using this
    have : f v = d' := by rw [hf_def]; simp [hd']
    rw [this]
    exact ⟨h1, h2⟩
  set w : Nat → α := fun n => f^[n] (S.head hne) with hw_def
  have hwmem : ∀ n, w n ∈ S := by
    intro n
    induction n with
    | zero => exact List.head_mem hne
    | succ k ihk =>
      have hit : w (k + 1) = f (w k) := Function.iterate_succ_apply' f k _
      rw [hit]
      exact (hf _ ihk).2
  have hwstep : ∀ n, w (n + 1) ∈ deps (w n) := by
    intro n
    have hit : w (n + 1) = f (w n) := Function.iterate_succ_apply' f n _
    rw [hit]
    exact (hf _ (hwmem n)).1
  have hreach : ∀ (m k : Nat), ReachN deps m (w k) (w (k + m)) := by
    intro m
    induction m with
    | zero => intro k; exact ReachN.refl (w k)
    | succ m ihm =>
      intro k
      have hstep := ReachN.step (hwstep k) (ihm (k + 1))
      have harith : k + 1 + m = k + (m + 1) := by omega
      rw [harith] at hstep
      exact hstep
  have hcard : S.toFinset.card ≤ S.length := S.toFinset_card_le
  obtain ⟨i, -, j, -, hij, heq⟩ :=
    Finset.exists_ne_map_eq_of_card_lt_of_maps_to
      (s := (Finset.univ : Finset (Fin (S.length + 1)))) (t := S.toFinset)
      (by simpa using Nat.lt_succ_of_le hcard)
      (fun i _ => List.mem_toFinset.mpr (hwmem i))
  have main : ∀ (a b : Nat), a < b → w a = w b →
      ∃ v ∈ S, ∃ n, 0 < n ∧ ReachN deps n v v := by
    intro a b hab heq'
    refine ⟨w a, hwmem a, b - a, by omega, ?_⟩
    have hr := hreach (b - a) a
    rw [show a + (b - a) = b from by omega] at hr
    rw [← heq'] at hr
    exact hr
  have hijv : (i : Nat) ≠ (j : Nat) := fun hc => hij (Fin.ext hc)
  rcases Nat.lt_or_ge (i : Nat) (j : Nat) with h | h
  · exact main i j h heq
  · exact main j i (by omega) heq.symm

theorem fix_closed [DecidableEq α] {deps : α → List α} {nodes : List α}
    {st : List α × List α}
    (hclosed : ∀ v ∈ nodes, ∀ d ∈ deps v, d ∈ nodes)
    (hInv : PlanInv deps nodes st) (hfix : layerStep deps st = st) :
    ∀ v ∈ st.2, ∃ d ∈ deps v, d ∈ st.2 := by
  intro v hv
  have hnil := fix_ready_nil hfix
  have hnall : ¬ ((deps v).all (fun d => decide (d ∈ st.1)) = true) := by
    intro hall
    have : v ∈ st.2.filter
        (fun v => (deps v).all (fun d => decide (d ∈ st.1))) :=
      List.mem_filter.mpr ⟨hv, hall⟩
    rw [hnil] at this
    cases this
  rw [List.all_eq_true] at hnall
  push_neg at hnall
  obtain ⟨d, hd, hnd⟩ := hnall
  have hdn : d ∉ st.1 := by simpa using hnd
  have hvnodes : v ∈ nodes := (hInv.cover v).mpr (Or.inr hv)
  have hdnodes : d ∈ nodes := hclosed v hvnodes d hd
  exact ⟨d, hd, ((hInv.cover d).mp hdnodes).resolve_left hdn⟩

theorem planState_inv [DecidableEq α] (deps : α → List α) {nodes : List α}
    (hnd : nodes.Nodup) : PlanInv deps nodes (planState deps nodes) :=
  planInv_iter nodes.length (planInv_init deps hnd)

theorem planState_fix [DecidableEq α] (deps : α → List α) (nodes : List α) :
    layerStep deps (planState deps nodes) = planState deps nodes :=
  layersIter_reaches_fix nodes.length ([], nodes) (le_refl _)

theorem planState_complete [DecidableEq α] {deps : α → List α}
    {nodes : List α} (hnd : nodes.Nodup)
    (hrem : (planState deps nodes).2 = []) :
    (∀ x, x ∈ nodes ↔ x ∈ (planState deps nodes).1)
    ∧ (∀ v ∈ (planState deps nodes).1, ∀ d ∈ deps v,
        d ∈ (planState deps nodes).1
        ∧ pos (planState deps nodes).1 d < pos (planState deps nodes).1 v) := by
  have hInv := planState_inv deps hnd
  refine ⟨fun x => ?_, hInv.topo⟩
  rw [hInv.cover x, hrem]
  simp

theorem planState_stuck_cycle [DecidableEq α] {deps : α → List α}
    {nodes : List α} (hnd : nodes.Nodup)
    (hclosed : ∀ v ∈ nodes, ∀ d ∈ deps v, d ∈ nodes)
    (hne : (planState deps nodes).2 ≠ []) :
    ∃ v ∈ (planState deps nodes).2, ∃ n, 0 < n ∧ ReachN deps n v v :=
  closed_list_cycle _ hne
    (fix_closed hclosed (planState_inv deps hnd) (planState_fix deps nodes))

theorem planState_empty_iff_acyclic [DecidableEq α] {deps : α → List α}
    {nodes : List α} (hnd : nodes.Nodup)
    (hclosed : ∀ v ∈ nodes, ∀ d ∈ deps v, d ∈ nodes) :
    (planState deps nodes).2 = [] ↔ ¬ HasCycle deps nodes := by
  constructor
  · intro hrem
    obtain ⟨hcov, htopo⟩ := planState_complete hnd hrem
    exact no_cycle_of_topo htopo (fun x hx => (hcov x).mp hx)
  · intro hacyc
    by_contra hne
    obtain ⟨v, hv, n, hn, hr⟩ := planState_stuck_cycle hnd hclosed hne
    have hvnodes : v ∈ nodes :=
      ((planState_inv deps hnd).cover v).mpr (Or.inr hv)
    exact hacyc ⟨v, hvnodes, n, hn, hr⟩

theorem refs_closed {req : DagRequest} (hrefs : checkRefs req = true) :
    ∀ v ∈ nodeIds req, ∀ d ∈ depsOf req.nodes v, d ∈ nodeIds req := by
  intro v _ d hd
  unfold checkRefs at hrefs
  rw [Bool.and_eq_true] at hrefs
  have hnodes := hrefs.1
  rw [List.all_eq_true] at hnodes
  unfold depsOf at hd
  cases hfind : req.nodes.find? (fun n => n.id = v) with
  | none => rw [hfind] at hd; cases hd
  | some n =>
    rw [hfind] at hd
    have hn : n ∈ req.nodes := List.mem_of_find?_eq_some hfind
    have := hnodes n hn
    rw [List.all_eq_true] at this
    have hany := this d hd
    simp only [List.any_eq_true, decide_eq_true_eq] at hany
    obtain ⟨m, hm, hmid⟩ := hany
    exact List.mem_map.mpr ⟨m, hm, hmid⟩

/-- C3: the Graph Validator fails with `CyclicGraph` if and only if the
dependency graph has a directed cycle (for a graph whose references resolve
and whose edges agree with the declared dependencies); the reported stuck set
contains a node on a cycle; on rejection the pipeline returns the error with
no probe consulted; and every cycle-free non-empty graph is accepted. -/
theorem graph_validator_cycle_iff (req : DagRequest)
    (hrefs : checkRefs req = true) (hcons : checkConsistent req = true)
    (hnd : (nodeIds req).Nodup) :
    ((∃ stuck, validate req = .error (.CyclicGraph stuck)) ↔
      HasCycle (depsOf req.nodes) (nodeIds req))
  ∧ (∀ stuck, validate req = .error (.CyclicGraph stuck) →
      ∃ v ∈ stuck, ∃ n, 0 < n ∧ ReachN (depsOf req.nodes) n v v)
  ∧ (∀ stuck probe persist now dagId,
      validate req = .error (.CyclicGraph stuck) →
      handleHealthCheck probe persist now dagId req
        = .error (.CyclicGraph stuck))
  ∧ (¬ HasCycle (depsOf req.nodes) (nodeIds req) → req.nodes ≠ [] →
      validate req = .ok ()) := by
  classical
  have hclosed := refs_closed hrefs
  have hiff := planState_empty_iff_acyclic hnd hclosed
  have hval : validate req =
      (if ¬ (planState (depsOf req.nodes) (nodeIds req)).2.isEmpty then
        Except.error (.CyclicGraph (planState (depsOf req.nodes) (nodeIds req)).2)
      else if req.nodes.isEmpty then Except.error .EmptyGraph
      else Except.ok ()) := by
    simp [validate, hrefs, hcons]
  by_cases hE : (planState (depsOf req.nodes) (nodeIds req)).2.isEmpty = true
  · have hnil : (planState (depsOf req.nodes) (nodeIds req)).2 = [] :=
      List.isEmpty_iff.mp hE
    have hnocyc : ¬ HasCycle (depsOf req.nodes) (nodeIds req) := hiff.mp hnil
    have hval2 : validate req =
        (if req.nodes.isEmpty then Except.error .EmptyGraph
         else Except.ok ()) := by
      rw [hval, hE]
      simp
    have hnever : ∀ stuck, validate req ≠ .error (.CyclicGraph stuck) := by
      intro stuck hc
      rw [hval2] at hc
      by_cases hmt : req.nodes.isEmpty = true <;> simp [hmt] at hc
    refine ⟨?_, ?_, ?_, ?_⟩
    · constructor
      · rintro ⟨stuck, hc⟩
        exact absurd hc (hnever stuck)
      · intro hc
        exact absurd hc hnocyc
    · intro stuck hc
      exact absurd hc (hnever stuck)
    · intro stuck probe persist now dagId hc
      exact absurd hc (hnever stuck)
    · intro _ hne
      rw [hval2, if_neg (by simpa using hne)]
  · have hne : (planState (depsOf req.nodes) (nodeIds req)).2 ≠ [] := by
      intro hc
      rw [hc] at hE
      exact hE rfl
    have hcyc : HasCycle (depsOf req.nodes) (nodeIds req) := by
      by_contra hc
      exact hne (hiff.mpr hc)
    have hval3 : validate req = .error
        (.CyclicGraph (planState (depsOf req.nodes) (nodeIds req)).2) := by
      rw [hval, if_pos (by simp [hE])]
    refine ⟨⟨fun _ => hcyc, fun _ => ⟨_, hval3⟩⟩, ?_, ?_, fun hc _ => absurd hcyc hc⟩
    · intro stuck hc
      rw [hval3] at hc
      have hstuck : stuck = (planState (depsOf req.nodes) (nodeIds req)).2 := by
        injection hc with h1
        injection h1 with h2
        exact h2.symm
      rw [hstuck]
      exact planState_stuck_cycle hnd hclosed hne
    · intro stuck probe persist now dagId hc
      simp [handleHealthCheck, hc]

/-- C4: for every acyclic graph (with resolving references and distinct node
ids) the Traversal Planner succeeds and its output is a valid topological
order: it lists exactly the declared nodes and every node appears strictly
after each of its dependencies.  The planner is a pure function of `deps` and
the input order of `nodes`, so its output is deterministic by construction. -/
theorem traversal_planner_topological (deps : String → List String)
    (nodes : List String) (hnd : nodes.Nodup)
    (hclosed : ∀ v ∈ nodes, ∀ d ∈ deps v, d ∈ nodes)
    (hacyc : ¬ HasCycle deps nodes) :
    ∃ L, planTraversal deps nodes = .ok L
      ∧ (∀ x, x ∈ L ↔ x ∈ nodes)
      ∧ (∀ v ∈ L, ∀ d ∈ deps v, d ∈ L ∧ pos L d < pos L v) := by
  have hrem : (planState deps nodes).2 = [] :=
    (planState_empty_iff_acyclic hnd hclosed).mpr hacyc
  obtain ⟨hcov, htopo⟩ := planState_complete hnd hrem
  refine ⟨(planState deps nodes).1, ?_, fun x => (hcov x).symm, htopo⟩
  simp [planTraversal, hrem]

theorem nonHealthyCount_eq_zero {rs : List ProbeResult}
    (h : ∀ r ∈ rs, r.status = .healthy) : nonHealthyCount rs = 0 := by
  unfold nonHealthyCount
  rw [List.length_eq_zero, List.filter_eq_nil_iff]
  intro r hr
  simp [h r hr]

theorem nonHealthyCount_pos {rs : List ProbeResult} {r : ProbeResult}
    (hr : r ∈ rs) (h : r.status ≠ .healthy) : 0 < nonHealthyCount rs := by
  have hbad : r.status = .unhealthy ∨ r.status = .unreachable := by
    cases hs : r.status
    · exact absurd hs h
    · exact Or.inl rfl
    · exact Or.inr rfl
  have hmem : r ∈ rs.filter
      (fun r => r.status = .unhealthy ∨ r.status = .unreachable) :=
    List.mem_filter.mpr ⟨hr, by simpa using hbad⟩
  unfold nonHealthyCount
  exact List.length_pos.mpr (fun hc => by rw [hc] at hmem; cases hmem)

/-- C2: the Status Aggregator is a deterministic pure function of the probe
results: all nodes `healthy` gives `healthy`; some node not `healthy` with
fewer than half the nodes `unhealthy`/`unreachable` gives `unhealthy`; a
strict majority of `unhealthy`/`unreachable` nodes gives `critical`. -/
theorem aggregator_classification (rs : List ProbeResult) (hne : rs ≠ []) :
    ((∀ r ∈ rs, r.status = .healthy) → aggregate rs = .healthy)
  ∧ ((∃ r ∈ rs, r.status ≠ .healthy) →
      2 * nonHealthyCount rs < rs.length → aggregate rs = .unhealthy)
  ∧ (rs.length < 2 * nonHealthyCount rs → aggregate rs = .critical) := by
  refine ⟨fun hall => ?_, fun hex hlt => ?_, fun hgt => ?_⟩
  · unfold aggregate
    rw [if_pos (nonHealthyCount_eq_zero hall)]
  · obtain ⟨r, hr, hr'⟩ := hex
    have hpos := nonHealthyCount_pos hr hr'
    unfold aggregate
    rw [if_neg (by omega), if_neg (by omega)]
  · have hlen : 0 < rs.length := List.length_pos.mpr hne
    unfold aggregate
    rw [if_neg (by omega), if_pos (by omega)]

theorem aggregator_classification_witness :
    (aggregate [⟨"a", .healthy, some 3, none, 0⟩] = .healthy)
  ∧ (aggregate [⟨"a", .healthy, some 3, none, 0⟩,
                ⟨"b", .healthy, some 3, none, 0⟩,
                ⟨"c", .unhealthy, some 9, some "HTTP 500", 0⟩] = .unhealthy)
  ∧ (aggregate [⟨"a", .unreachable, none, some "timeout", 0⟩] = .critical) := by
  refine ⟨?_, ?_, ?_⟩
  · exact (aggregator_classification [⟨"a", .healthy, some 3, none, 0⟩]
      (by simp)).1 (by intro r hr; simp at hr; rw [hr])
  · exact (aggregator_classification [⟨"a", .healthy, some 3, none, 0⟩,
        ⟨"b", .healthy, some 3, none, 0⟩,
        ⟨"c", .unhealthy, some 9, some "HTTP 500", 0⟩] (by simp)).2.1
      ⟨⟨"c", .unhealthy, some 9, some "HTTP 500", 0⟩, by simp, by simp⟩
      (by simp [nonHealthyCount, List.filter])
  · exact (aggregator_classification
        [⟨"a", .unreachable, none, some "timeout", 0⟩] (by simp)).2.2
      (by simp [nonHealthyCount, List.filter])

/-- C1: the Health Prober's classification is a pure function of the probe
outcome: a 200 response gives `healthy` with the measured round-trip time; any
non-200 response gives `unhealthy` with the status code inside the error
message and the round-trip time still recorded; a connection/DNS/timeout
failure gives `unreachable` with the failure message and no response time. -/
theorem prober_classification (nodeId : String) (now : Nat) (code : Nat)
    (rtt : ℚ) (msg : String) :
    (classify nodeId now (.response 200 rtt)).status = .healthy
  ∧ (classify nodeId now (.response 200 rtt)).response_time_ms = some rtt
  ∧ (code ≠ 200 →
      (classify nodeId now (.response code rtt)).status = .unhealthy
    ∧ (classify nodeId now (.response code rtt)).response_time_ms = some rtt
    ∧ ∃ pre suf, (classify nodeId now (.response code rtt)).error_message
        = some (pre ++ toString code ++ suf))
  ∧ (classify nodeId now (.failure msg)).status = .unreachable
  ∧ (classify nodeId now (.failure msg)).response_time_ms = none
  ∧ (classify nodeId now (.failure msg)).error_message = some msg := by
  refine ⟨by simp [classify], by simp [classify], fun h => ?_,
    by simp [classify], by simp [classify], by simp [classify]⟩
  refine ⟨by simp [classify, h], by simp [classify, h], "HTTP ", "", ?_⟩
  simp [classify, h]

theorem prober_classification_witness :
    (classify "db" 7 (.response 500 12)).status = .unhealthy
  ∧ (classify "db" 7 (.response 500 12)).response_time_ms = some 12
  ∧ ∃ pre suf, (classify "db" 7 (.response 500 12)).error_message
      = some (pre ++ toString 500 ++ suf) :=
  (prober_classification "db" 7 500 12 "x").2.2.1 (by decide)

theorem map_fst_of_persist_branch (record : CheckRecord)
    (res : Except EngineError Unit) :
    (match res with
     | .ok () => Except.ok (ε := EngineError) (record, ([] : List String))
     | .error _ => Except.ok (record, ["PersistenceError"])).map Prod.fst
      = Except.ok record := by
  cases res with
  | ok u => cases u; rfl
  | error e => rfl

/-- C7: a Result Store failure never masks the health-check response: the
record part of the pipeline output is the same whatever the persistence
function does (in particular when it fails with `PersistenceError`). -/
theorem persistence_failure_does_not_mask (probe : String → ProbeOutcome)
    (persist₁ persist₂ : CheckRecord → Except EngineError Unit) (now : Nat)
    (dagId : String) (req : DagRequest) :
    (handleHealthCheck probe persist₁ now dagId req).map Prod.fst
      = (handleHealthCheck probe persist₂ now dagId req).map Prod.fst := by
  unfold handleHealthCheck
  cases validate req with
  | error e => rfl
  | ok u =>
    cases u
    cases planTraversal (depsOf req.nodes) (nodeIds req) with
    | error e => rfl
    | ok order =>
      simp only []
      rw [map_fst_of_persist_branch, map_fst_of_persist_branch]

theorem mem_insertDesc {r y : CheckRecord} {l : List CheckRecord} :
    y ∈ insertDesc r l ↔ y = r ∨ y ∈ l := by
  induction l with
  | nil => simp [insertDesc]
  | cons x xs ih =>
    unfold insertDesc
    by_cases h : r.checked_at ≤ x.checked_at
    · rw [if_pos h]
      simp only [List.mem_cons, ih]
      tauto
    · rw [if_neg h]
      simp only [List.mem_cons]

theorem pairwise_insertDesc {r : CheckRecord} {l : List CheckRecord}
    (h : l.Pairwise (fun a b => b.checked_at ≤ a.checked_at)) :
    (insertDesc r l).Pairwise (fun a b => b.checked_at ≤ a.checked_at) := by
  induction l with
  | nil => simp [insertDesc]
  | cons x xs ih =>
    rw [List.pairwise_cons] at h
    obtain ⟨hx, hxs⟩ := h
    unfold insertDesc
    by_cases hc : r.checked_at ≤ x.checked_at
    · rw [if_pos hc]
      rw [List.pairwise_cons]
      refine ⟨?_, ih hxs⟩
      intro y hy
      rcases mem_insertDesc.mp hy with hy | hy
      · rw [hy]; exact hc
      · exact hx y hy
    · rw [if_neg hc]
      rw [List.pairwise_cons]
      refine ⟨?_, List.pairwise_cons.mpr ⟨hx, hxs⟩⟩
      intro y hy
      rcases List.mem_cons.mp hy with hy | hy
      · rw [hy]; omega
      · have := hx y hy
        omega

theorem pairwise_sortDesc (store : List CheckRecord) :
    (sortDesc store).Pairwise (fun a b => b.checked_at ≤ a.checked_at) := by
  unfold sortDesc
  induction store with
  | nil => simp
  | cons x xs ih => exact pairwise_insertDesc ih

theorem find?_append_last {r : CheckRecord} {store : List CheckRecord}
    (hfresh : ∀ r' ∈ store, r'.dag_id ≠ r.dag_id) :
    (store ++ [r]).find? (fun x => x.dag_id = r.dag_id) = some r := by
  induction store with
  | nil => simp
  | cons a as ih =>
    have ha : a.dag_id ≠ r.dag_id := hfresh a (List.mem_cons_self a as)
    have : ((a :: as) ++ [r]).find? (fun x => x.dag_id = r.dag_id)
        = (as ++ [r]).find? (fun x => x.dag_id = r.dag_id) := by
      simp [List.find?, ha]
    rw [this]
    exact ih (fun r' hr' => hfresh r' (List.mem_cons_of_mem a hr'))

/-- C5: Result Store round-trip and history shape: saving a fresh CheckRecord
and fetching it back by its `dag_id` returns the identical record, and the
history listing never exceeds 100 entries and is ordered most-recent-first by
`checked_at`. -/
theorem result_store_properties (r : CheckRecord) (store : List CheckRecord)
    (hfresh : ∀ r' ∈ store, r'.dag_id ≠ r.dag_id) :
    getByDagId r.dag_id (saveRecord r store) = .ok r
  ∧ (listRecent store).length ≤ 100
  ∧ (listRecent store).Pairwise (fun a b => b.checked_at ≤ a.checked_at) := by
  refine ⟨?_, ?_, ?_⟩
  · unfold getByDagId saveRecord
    rw [find?_append_last hfresh]
  · unfold listRecent
    exact List.length_take_le 100 (sortDesc store)
  · unfold listRecent
    exact (pairwise_sortDesc store).sublist (List.take_sublist 100 _)

theorem result_store_properties_witness :
    getByDagId "run-1"
        (saveRecord ⟨"run-1", .healthy, [], ⟨[], []⟩, [], 5⟩
          [⟨"run-0", .critical, [], ⟨[], []⟩, [], 3⟩])
      = .ok ⟨"run-1", .healthy, [], ⟨[], []⟩, [], 5⟩
  ∧ (listRecent [⟨"run-0", .critical, [], ⟨[], []⟩, [], 3⟩]).length ≤ 100
  ∧ (listRecent [⟨"run-0", .critical, [], ⟨[], []⟩, [], 3⟩]).Pairwise
      (fun a b => b.checked_at ≤ a.checked_at) :=
  result_store_properties ⟨"run-1", .healthy, [], ⟨[], []⟩, [], 5⟩
    [⟨"run-0", .critical, [], ⟨[], []⟩, [], 3⟩]
    (by intro r' hr'; simp at hr'; rw [hr']; decide)

/-- C6: when the `edges` list and the per-node `dependencies` disagree (and
the references themselves resolve), the request is rejected as inconsistent
before any probing: the pipeline returns `InconsistentGraph` and its result
does not depend on the prober at all. -/
theorem inconsistent_graph_rejected (req : DagRequest)
    (probe probe' : String → ProbeOutcome)
    (persist : CheckRecord → Except EngineError Unit) (now : Nat)
    (dagId : String) (hrefs : checkRefs req = true)
    (hinc : checkConsistent req = false) :
    validate req = .error .InconsistentGraph
  ∧ handleHealthCheck probe persist now dagId req
      = .error .InconsistentGraph
  ∧ handleHealthCheck probe persist now dagId req
      = handleHealthCheck probe' persist now dagId req := by
  have hv : validate req = .error .InconsistentGraph := by
    unfold validate
    rw [if_neg (by simp [hrefs]), if_pos (by simp [hinc])]
  have hh : ∀ p : String → ProbeOutcome,
      handleHealthCheck p persist now dagId req
        = .error .InconsistentGraph := by
    intro p
    unfold handleHealthCheck
    rw [hv]
  exact ⟨hv, hh probe, (hh probe).trans (hh probe').symm⟩

theorem inconsistent_graph_rejected_witness :
    validate ⟨[⟨"A", "A", "http://a", []⟩, ⟨"B", "B", "http://b", ["A"]⟩], []⟩
      = .error .InconsistentGraph
  ∧ handleHealthCheck (fun _ => .failure "down") (fun _ => .ok ()) 0 "d"
      ⟨[⟨"A", "A", "http://a", []⟩, ⟨"B", "B", "http://b", ["A"]⟩], []⟩
      = .error .InconsistentGraph
  ∧ handleHealthCheck (fun _ => .failure "down") (fun _ => .ok ()) 0 "d"
      ⟨[⟨"A", "A", "http://a", []⟩, ⟨"B", "B", "http://b", ["A"]⟩], []⟩
      = handleHealthCheck (fun _ => .response 200 1) (fun _ => .ok ()) 0 "d"
      ⟨[⟨"A", "A", "http://a", []⟩, ⟨"B", "B", "http://b", ["A"]⟩], []⟩ :=
  inconsistent_graph_rejected
    ⟨[⟨"A", "A", "http://a", []⟩, ⟨"B", "B", "http://b", ["A"]⟩], []⟩
    (fun _ => .failure "down") (fun _ => .response 200 1) (fun _ => .ok ())
    0 "d" (by decide) (by decide)

/-- C8: the frontend renders the response-time cell as `"<value>ms"` exactly
when `response_time_ms` is truthy; an absent value and a measured 0 ms are
both falsy and render identically as `"-"`. -/
theorem response_time_rendering (fmt : ℚ → String) (rt : Option ℚ) (v : ℚ) :
    (jsTruthy rt = true ↔ ∃ q, rt = some q ∧ q ≠ 0)
  ∧ renderResponseTime fmt none = "-"
  ∧ renderResponseTime fmt (some 0) = "-"
  ∧ renderResponseTime fmt none = renderResponseTime fmt (some 0)
  ∧ (v ≠ 0 → renderResponseTime fmt (some v) = fmt v ++ "ms")
  ∧ (jsTruthy rt = false → renderResponseTime fmt rt = "-") := by
  refine ⟨?_, rfl, by simp [renderResponseTime, jsTruthy], ?_, ?_, ?_⟩
  · cases rt with
    | none => simp [jsTruthy]
    | some q => simp [jsTruthy]
  · simp [renderResponseTime, jsTruthy]
  · intro hv
    simp [renderResponseTime, jsTruthy, hv]
  · intro hfalse
    cases rt with
    | none => rfl
    | some q =>
      simp only [jsTruthy, decide_eq_false_iff_not, not_not] at hfalse
      simp [renderResponseTime, jsTruthy, hfalse]

theorem response_time_rendering_witness :
    renderResponseTime toString (none : Option ℚ) = "-"
  ∧ renderResponseTime toString (some (1 : ℚ)) = toString (1 : ℚ) ++ "ms"
  ∧ renderResponseTime toString (some (0 : ℚ)) = "-" :=
  ⟨(response_time_rendering toString none 1).2.1,
   (response_time_rendering toString none 1).2.2.2.2.1 (by norm_num),
   (response_time_rendering toString none 1).2.2.1⟩

/-- C9: `runHealthCheck` with no loaded configuration issues no request (its
result does not depend on the network), leaves `dagData`, `healthResults` and
`loading` unchanged and only appends an error toast; and a file upload whose
JSON fails to parse leaves `dagData` unchanged, showing only an error toast. -/
theorem frontend_guard_behaviour (s : AppState)
    (post post' : DagRequest → Except String HealthResponse)
    (parse : String → Option DagRequest) (contents : String) :
    (s.dagData = none →
        runHealthCheckFE post s = runHealthCheckFE post' s
      ∧ (runHealthCheckFE post s).healthResults = s.healthResults
      ∧ (runHealthCheckFE post s).dagData = s.dagData
      ∧ (runHealthCheckFE post s).loading = s.loading
      ∧ (runHealthCheckFE post s).toasts =
          s.toasts ++ [.error "Please upload a DAG configuration first"])
  ∧ (parse contents = none →
        (handleFileUpload parse contents s).dagData = s.dagData
      ∧ (handleFileUpload parse contents s).healthResults = s.healthResults
      ∧ (handleFileUpload parse contents s).toasts =
          s.toasts ++ [.error "Invalid JSON file"]) := by
  constructor
  · intro h
    refine ⟨?_, ?_, ?_, ?_, ?_⟩ <;> simp [runHealthCheckFE, h]
  · intro h
    refine ⟨?_, ?_, ?_⟩ <;> simp [handleFileUpload, h]

theorem frontend_guard_behaviour_witness :
    (runHealthCheckFE (fun _ => .error "net") ⟨none, none, false, []⟩
        = runHealthCheckFE (fun d => .ok ⟨"x", .healthy, [], d, [], 0⟩)
            ⟨none, none, false, []⟩
      ∧ (runHealthCheckFE (fun _ => .error "net")
          ⟨none, none, false, []⟩).healthResults = none
      ∧ (runHealthCheckFE (fun _ => .error "net")
          ⟨none, none, false, []⟩).dagData = none
      ∧ (runHealthCheckFE (fun _ => .error "net")
          ⟨none, none, false, []⟩).loading = false
      ∧ (runHealthCheckFE (fun _ => .error "net")
          ⟨none, none, false, []⟩).toasts =
          [] ++ [.error "Please upload a DAG configuration first"])
  ∧ ((handleFileUpload (fun _ => none) "not json"
        ⟨none, none, false, []⟩).dagData = none
      ∧ (handleFileUpload (fun _ => none) "not json"
          ⟨none, none, false, []⟩).healthResults = none
      ∧ (handleFileUpload (fun _ => none) "not json"
          ⟨none, none, false, []⟩).toasts = [] ++ [.error "Invalid JSON file"]) :=
  ⟨(frontend_guard_behaviour ⟨none, none, false, []⟩ (fun _ => .error "net")
      (fun d => .ok ⟨"x", .healthy, [], d, [], 0⟩) (fun _ => none)
      "not json").1 rfl,
   (frontend_guard_behaviour ⟨none, none, false, []⟩ (fun _ => .error "net")
      (fun d => .ok ⟨"x", .healthy, [], d, [], 0⟩) (fun _ => none)
      "not json").2 rfl⟩

/-- C10: `GraphVisualization` colors a node as a total deterministic function
of the node's probe status alone: `healthy` ⇒ green `#10b981`, `unhealthy` ⇒
amber `#f59e0b`, `unreachable` ⇒ red `#ef4444`, anything else or a missing
status ⇒ gray `#6b7280` (with matching border colors). -/
theorem graph_node_colors (st : Option String)
    (results results' : List (String × String)) (id id' : String) :
    (nodeBackgroundColor (some "healthy") = "#10b981"
      ∧ nodeBorderColor (some "healthy") = "#059669")
  ∧ (nodeBackgroundColor (some "unhealthy") = "#f59e0b"
      ∧ nodeBorderColor (some "unhealthy") = "#d97706")
  ∧ (nodeBackgroundColor (some "unreachable") = "#ef4444"
      ∧ nodeBorderColor (some "unreachable") = "#dc2626")
  ∧ (st ≠ some "healthy" → st ≠ some "unhealthy" → st ≠ some "unreachable" →
      nodeBackgroundColor st = "#6b7280" ∧ nodeBorderColor st = "#4b5563")
  ∧ (statusIn results id = statusIn results' id' →
      renderedNodeColors results id = renderedNodeColors results' id') := by
  refine ⟨⟨rfl, rfl⟩, ⟨rfl, rfl⟩, ⟨rfl, rfl⟩, fun h1 h2 h3 => ?_, fun h => ?_⟩
  · constructor <;> simp [nodeBackgroundColor, nodeBorderColor, h1, h2, h3]
  · simp [renderedNodeColors, h]

theorem graph_node_colors_witness :
    (nodeBackgroundColor none = "#6b7280" ∧ nodeBorderColor none = "#4b5563")
  ∧ renderedNodeColors [("a", "healthy")] "a"
      = renderedNodeColors [("b", "healthy")] "b" :=
  ⟨(graph_node_colors none [("a", "healthy")] [("b", "healthy")] "a" "b").2.2.2.1
      (by simp) (by simp) (by simp),
   (graph_node_colors none [("a", "healthy")] [("b", "healthy")] "a" "b").2.2.2.2
      (by decide)⟩

theorem graph_validator_cycle_iff_witness :
    ∃ v ∈ (["A", "B"] : List String), ∃ n, 0 < n ∧
      ReachN (depsOf [⟨"A", "A", "http://a", ["B"]⟩,
        ⟨"B", "B", "http://b", ["A"]⟩]) n v v :=
  (graph_validator_cycle_iff
      ⟨[⟨"A", "A", "http://a", ["B"]⟩, ⟨"B", "B", "http://b", ["A"]⟩],
       [⟨"B", "A"⟩, ⟨"A", "B"⟩]⟩
      (by decide) (by decide) (by decide)).2.1 ["A", "B"] rfl

theorem traversal_planner_topological_witness :
    ∃ L, planTraversal (fun v => if v = "B" then ["A"] else []) ["A", "B"]
        = .ok L
      ∧ (∀ x, x ∈ L ↔ x ∈ (["A", "B"] : List String))
      ∧ (∀ v ∈ L, ∀ d ∈ (fun v => if v = "B" then ["A"] else []) v,
          d ∈ L ∧ pos L d < pos L v) :=
  traversal_planner_topological (fun v => if v = "B" then ["A"] else [])
    ["A", "B"] (by decide) (by decide)
    ((planState_empty_iff_acyclic (by decide) (by decide)).mp (by decide))

end DagHealth


